import Mathlib

/-!
Shallow embedding of the icub3d sudoku solver (src/lib.rs) and proofs of the
spec claims. The `Board` struct owns a row-major `Vec<u8>` of 81 cells, 0
denoting an empty cell; we model the grid as `List Nat`. Rust's panicking
index operation `grid[i]` is modelled by `List.getD i 0` in the main
definitions; separate checked variants use `List.get?` and return `none`
where the Rust code would panic, and we prove the two agree on length-81
boards, so the panic branch is unreachable. The recursion of `solve_helper`
is modelled with explicit fuel (`none` = fuel exhausted); fuel 82 is proved
sufficient for every start position.
-/

namespace SudokuSolver

/-- A sudoku grid: the `grid` field of `Board`, row-major, index = row*9+col. -/
abbrev Grid := List Nat

/-- Candidate validity check, from `Board::valid`: scan row `y = p / 9` and
column `x = p % 9` (skipping position `p` itself in each), then the containing
3x3 box (again skipping `p`), and succeed iff no scanned cell holds `n`. -/
def valid (g : Grid) (p n : Nat) : Bool :=
  let x := p % 9
  let y := p / 9
  let x0 := x / 3 * 3
  let y0 := y / 3 * 3
  ((List.range 9).all fun i =>
    (decide (i = x) || !decide (g.getD (y * 9 + i) 0 = n)) &&
    (decide (i = y) || !decide (g.getD (i * 9 + x) 0 = n))) &&
  ((List.range 3).all fun dx =>
    (List.range 3).all fun dy =>
      (decide (y0 + dy = y) && decide (x0 + dx = x)) ||
      !decide (g.getD ((y0 + dy) * 9 + (x0 + dx)) 0 = n))

/-- Solved check, from `Board::solved`: every cell is non-zero and valid at its
own position (the Rust code iterates `grid.iter().enumerate()`, i.e. positions
`0..grid.len()` paired with the stored values). -/
def solved (g : Grid) : Bool :=
  (List.range g.length).all fun p =>
    !decide (g.getD p 0 = 0) && valid g p (g.getD p 0)

/-- Loop body of `Board::next_unsolved`: scan positions `p, p+1, ...` while the
countdown lasts (the countdown is `81 - p`, so the scan covers `p..81`), and
return the first position holding 0, or the sentinel 81. -/
def nextUnsolvedFrom (g : Grid) : Nat → Nat → Nat
  | 0, _ => 81
  | k + 1, p => if g.getD p 0 = 0 then p else nextUnsolvedFrom g k (p + 1)

/-- Next-unsolved scan, from `Board::next_unsolved`: first position in
`[p, 81)` holding 0, else the sentinel 81. -/
def nextUnsolved (g : Grid) (p : Nat) : Nat := nextUnsolvedFrom g (81 - p) p

/-- Digit loop of `Board::solve_helper` (`for n in 1..10`), parameterised by
the recursive call `rec`: try each remaining candidate in order; on a valid
candidate store it and recurse from the next unsolved position, short-circuit
on success; when the candidates are exhausted reset `grid[p] = 0` and fail. -/
def tryDigits (rec : Grid → Nat → Option (Bool × Grid)) (p : Nat) :
    Grid → List Nat → Option (Bool × Grid)
  | g, [] => some (false, g.set p 0)
  | g, n :: ns =>
    if valid g p n then
      match rec (g.set p n) (nextUnsolved (g.set p n) (p + 1)) with
      | none => none
      | some (true, g2) => some (true, g2)
      | some (false, g2) => tryDigits rec p g2 ns
    else tryDigits rec p g ns

/-- Recursive step of `Board::solve_helper`, with explicit fuel: at the
sentinel position 81 return `solved()`, otherwise run the digit loop with
candidates 1..9. `none` means the fuel ran out (proved unreachable for
fuel 82 and any start position at most 81). -/
def solveHelper : Nat → Grid → Nat → Option (Bool × Grid)
  | 0, _, _ => none
  | fuel + 1, g, p =>
    if p = 81 then some (solved g, g)
    else tryDigits (solveHelper fuel) p g [1, 2, 3, 4, 5, 6, 7, 8, 9]

/-- Entry point `Board::solve`: run `solve_helper` from the first unsolved
position, returning the success flag and the final grid. Fuel 82 is
sufficient (the recursion advances the position at every step), so the
default of `getD` is never consulted. -/
def solve (g : Grid) : Bool × Grid :=
  (solveHelper 82 g (nextUnsolved g 0)).getD (false, g)

/-- One formatted row of `ToString::to_string`: nine cells with single-space
separators and a bar between the column groups, ending in a newline. -/
def rowString (g : Grid) (y : Nat) : String :=
  Nat.repr (g.getD (y * 9 + 0) 0) ++ " " ++ Nat.repr (g.getD (y * 9 + 1) 0) ++ " " ++
  Nat.repr (g.getD (y * 9 + 2) 0) ++ " | " ++ Nat.repr (g.getD (y * 9 + 3) 0) ++ " " ++
  Nat.repr (g.getD (y * 9 + 4) 0) ++ " " ++ Nat.repr (g.getD (y * 9 + 5) 0) ++ " | " ++
  Nat.repr (g.getD (y * 9 + 6) 0) ++ " " ++ Nat.repr (g.getD (y * 9 + 7) 0) ++ " " ++
  Nat.repr (g.getD (y * 9 + 8) 0) ++ "\n"

/-- Row loop of `ToString::to_string`: for each row push the divider line when
`y % 3 == 0 && y != 0`, then the formatted row. -/
def boardRows (g : Grid) : List Nat → String
  | [] => ""
  | y :: ys =>
    (if y % 3 = 0 ∧ y ≠ 0 then "------+-------+------\n" else "") ++
    (rowString g y ++ boardRows g ys)

/-- Rendering, from `impl ToString for Board`: the nine rows in order, with the
divider line pushed before rows 3 and 6. -/
def boardToString (g : Grid) : String := boardRows g (List.range 9)

/-- Error kinds of `Board::new`: the two `bail!` messages, plus the error a
failing `parse::<u8>()` would propagate through `?` (proved unreachable once
the character-class check has passed). -/
inductive NewError
  | lengthMismatch
  | invalidChar
  | digitParse
deriving DecidableEq

/-- Character class of the construction regex `^[ 0-9._]*$`. -/
def allowedChar (c : Char) : Bool :=
  decide (c = ' ') || (decide ('0' ≤ c) && decide (c ≤ '9')) ||
  decide (c = '.') || decide (c = '_')

/-- Rust `String::len` counts UTF-8 bytes, not characters. -/
def utf8Length (s : List Char) : Nat := (s.map Char.utf8Size).sum

/-- Result of `c.to_string().parse::<u8>()` on a single character: the digit
value for an ASCII digit, an error otherwise. -/
def parseDigitChar (c : Char) : Option Nat :=
  if '0' ≤ c ∧ c ≤ '9' then some (c.toNat - '0'.toNat) else none

/-- Grid-building loop of `Board::new`: push 0 for each of the three blank
markers, otherwise push the parsed digit, propagating a parse failure. -/
def buildGrid : List Char → Except NewError Grid
  | [] => .ok []
  | c :: cs =>
    if c = '.' ∨ c = '_' ∨ c = ' ' then (buildGrid cs).map fun g => 0 :: g
    else
      match parseDigitChar c with
      | none => .error .digitParse
      | some d => (buildGrid cs).map fun g => d :: g

/-- Construction, from `Board::new`: reject byte lengths other than 81, then
reject strings with a character outside `[ 0-9._]`, then build the grid. -/
def boardNew (s : List Char) : Except NewError Grid :=
  if utf8Length s ≠ 81 then .error .lengthMismatch
  else if ¬ s.all allowedChar then .error .invalidChar
  else buildGrid s

/-- Row index of a linear position, as the spec derives it. -/
def rowOf (p : Nat) : Nat := p / 9

/-- Column index of a linear position, as the spec derives it. -/
def colOf (p : Nat) : Nat := p % 9

/-- Box index (0..8) of a linear position: three boxes per band. -/
def boxOf (p : Nat) : Nat := p / 9 / 3 * 3 + p % 9 / 3

/-- Two positions share a row, a column, or a 3x3 box. -/
def SameUnit (p q : Nat) : Prop :=
  rowOf p = rowOf q ∨ colOf p = colOf q ∨ boxOf p = boxOf q

instance : ∀ p q, Decidable (SameUnit p q) := fun p q => by
  unfold SameUnit
  infer_instance

/-- Spec-side consistency invariant: every non-zero cell passes the validity
check at its own position (no two equal non-zero cells share a unit). -/
def Consistent (g : Grid) : Prop :=
  ∀ p, p < 81 → g.getD p 0 ≠ 0 → valid g p (g.getD p 0) = true

instance (g : Grid) : Decidable (Consistent g) := by
  unfold Consistent
  infer_instance

/-- Spec-side notion, written from the spec's words: a completely filled grid
(81 cells, digits 1..9) in which no two cells of a row, column, or box hold
the same digit. -/
def FullValid (gf : Grid) : Prop :=
  gf.length = 81 ∧
  (∀ i, i < 81 → 1 ≤ gf.getD i 0 ∧ gf.getD i 0 ≤ 9) ∧
  (∀ i j, i < 81 → j < 81 → i ≠ j → SameUnit i j → gf.getD i 0 ≠ gf.getD j 0)

/-- Spec-side notion for claim C1: `gf` is a completely filled repeat-free
grid that agrees with `g` on every non-zero (clue) cell of `g`. -/
def Completes (g gf : Grid) : Prop :=
  FullValid gf ∧ ∀ i, i < 81 → g.getD i 0 ≠ 0 → gf.getD i 0 = g.getD i 0

/-- Values of row `r` of the grid, in column order. -/
def rowVals (g : Grid) (r : Nat) : List Nat :=
  (List.range 9).map fun c => g.getD (r * 9 + c) 0

/-- Values of column `c` of the grid, in row order. -/
def colVals (g : Grid) (c : Nat) : List Nat :=
  (List.range 9).map fun r => g.getD (r * 9 + c) 0

/-- Values of box `b` (0..8) of the grid, in reading order. -/
def boxVals (g : Grid) (b : Nat) : List Nat :=
  (List.range 9).map fun k => g.getD ((b / 3 * 3 + k / 3) * 9 + (b % 3 * 3 + k % 3)) 0

/-! Basic facts about cell reads and writes. -/

theorem getD_set_ne (g : Grid) {p q : Nat} (v : Nat) (h : p ≠ q) :
    (g.set p v).getD q 0 = g.getD q 0 := by
  simp [List.getD_eq_getElem?_getD, List.getElem?_set_ne h]

theorem getD_set_self (g : Grid) {p : Nat} (v : Nat) (h : p < g.length) :
    (g.set p v).getD p 0 = v := by
  simp [List.getD_eq_getElem?_getD, List.getElem?_set_self h]

theorem set_zero_eq_self (g : Grid) (p : Nat) (h : g.getD p 0 = 0) :
    g.set p 0 = g := by
  apply List.ext_getElem?
  intro n
  rw [List.getElem?_set]
  by_cases hpn : p = n
  · subst hpn
    simp only [if_pos rfl]
    by_cases hl : p < g.length
    · rw [if_pos hl, List.getD_eq_getElem?_getD, List.getElem?_eq_getElem hl] at *
      simpa using h.symm
    · rw [if_neg hl, eq_comm]
      exact List.getElem?_eq_none (by omega)
  · rw [if_neg hpn]

/-! Characterisation of `valid`: the three scan loops check exactly the cells
sharing a row, column, or box with `p`, excluding `p` itself. -/

theorem valid_eq_true_iff (g : Grid) (p n : Nat) (hp : p < 81) :
    valid g p n = true ↔
      ∀ q, q < 81 → q ≠ p → SameUnit p q → g.getD q 0 ≠ n := by
  simp only [valid, Bool.and_eq_true, List.all_eq_true, List.mem_range,
    Bool.or_eq_true, decide_eq_true_eq, Bool.not_eq_true', decide_eq_false_iff_not]
  constructor
  · rintro ⟨hrc, hbox⟩ q hq hqp hunit
    rcases hunit with hrow | hcol | hbx
    · have hi := (hrc (q % 9) (by omega)).1
      simp only [rowOf] at hrow
      rcases hi with hx | hcell
      · exfalso; omega
      · have : p / 9 * 9 + q % 9 = q := by omega
        rwa [this] at hcell
    · have hi := (hrc (q / 9) (by omega)).2
      simp only [colOf] at hcol
      rcases hi with hy | hcell
      · exfalso; omega
      · have : q / 9 * 9 + p % 9 = q := by omega
        rwa [this] at hcell
    · simp only [boxOf] at hbx
      have hdy : q / 9 - p / 9 / 3 * 3 < 3 := by omega
      have hdx : q % 9 - p % 9 / 3 * 3 < 3 := by omega
      have hb := hbox (q % 9 - p % 9 / 3 * 3) hdx (q / 9 - p / 9 / 3 * 3) hdy
      rcases hb with ⟨hy, hx⟩ | hcell
      · exfalso; omega
      · have : (p / 9 / 3 * 3 + (q / 9 - p / 9 / 3 * 3)) * 9 +
            (p % 9 / 3 * 3 + (q % 9 - p % 9 / 3 * 3)) = q := by omega
        rwa [this] at hcell
  · intro h
    refine ⟨fun i hi => ⟨?_, ?_⟩, fun dx hdx dy hdy => ?_⟩
    · by_cases hx : i = p % 9
      · exact Or.inl hx
      · refine Or.inr (h (p / 9 * 9 + i) (by omega) (by omega) ?_)
        simp only [SameUnit, rowOf]
        left; omega
    · by_cases hy : i = p / 9
      · exact Or.inl hy
      · refine Or.inr (h (i * 9 + p % 9) (by omega) (by omega) ?_)
        simp only [SameUnit, colOf]
        right; left; omega
    · by_cases hsk : p / 9 / 3 * 3 + dy = p / 9 ∧ p % 9 / 3 * 3 + dx = p % 9
      · exact Or.inl hsk
      · refine Or.inr
          (h ((p / 9 / 3 * 3 + dy) * 9 + (p % 9 / 3 * 3 + dx)) (by omega) (by omega) ?_)
        simp only [SameUnit, boxOf]
        right; right; omega

theorem sameUnit_symm {p q : Nat} (h : SameUnit p q) : SameUnit q p := by
  rcases h with h | h | h
  · exact Or.inl h.symm
  · exact Or.inr (Or.inl h.symm)
  · exact Or.inr (Or.inr h.symm)

theorem valid_congr {g1 g2 : Grid} (p n : Nat) (hp : p < 81)
    (h : ∀ q, q < 81 → g1.getD q 0 = g2.getD q 0) :
    valid g1 p n = valid g2 p n := by
  rw [Bool.eq_iff_iff, valid_eq_true_iff g1 p n hp, valid_eq_true_iff g2 p n hp]
  constructor
  · intro hv q hq hqp hu
    rw [← h q hq]
    exact hv q hq hqp hu
  · intro hv q hq hqp hu
    rw [h q hq]
    exact hv q hq hqp hu

theorem valid_set_same_pos (g : Grid) (p n m : Nat) (hp : p < 81) :
    valid (g.set p m) p n = valid g p n := by
  rw [Bool.eq_iff_iff, valid_eq_true_iff _ p n hp, valid_eq_true_iff g p n hp]
  constructor
  · intro hv q hq hqp hu
    have := hv q hq hqp hu
    rwa [getD_set_ne g m (Ne.symm hqp)] at this
  · intro hv q hq hqp hu
    rw [getD_set_ne g m (Ne.symm hqp)]
    exact hv q hq hqp hu

/-! Characterisation of `solved`. -/

theorem solved_eq_true_iff (g : Grid) :
    solved g = true ↔
      ∀ p, p < g.length → g.getD p 0 ≠ 0 ∧ valid g p (g.getD p 0) = true := by
  simp only [solved, List.all_eq_true, List.mem_range, Bool.and_eq_true,
    Bool.not_eq_true', decide_eq_false_iff_not]

/-! Specification of `nextUnsolved`. -/

theorem nextUnsolvedFrom_ge (g : Grid) :
    ∀ k p, p ≤ nextUnsolvedFrom g k p ∨ nextUnsolvedFrom g k p = 81 := by
  intro k
  induction k with
  | zero => intro p; exact Or.inr rfl
  | succ k ih =>
    intro p
    simp only [nextUnsolvedFrom]
    by_cases h : g.getD p 0 = 0
    · rw [if_pos h]; exact Or.inl le_rfl
    · rw [if_neg h]
      rcases ih (p + 1) with h2 | h2
      · exact Or.inl (by omega)
      · exact Or.inr h2

theorem nextUnsolvedFrom_le (g : Grid) :
    ∀ k p, k + p ≤ 81 → nextUnsolvedFrom g k p ≤ 81 := by
  intro k
  induction k with
  | zero => intro p _; exact le_rfl
  | succ k ih =>
    intro p hk
    simp only [nextUnsolvedFrom]
    by_cases h : g.getD p 0 = 0
    · rw [if_pos h]; omega
    · rw [if_neg h]; exact ih (p + 1) (by omega)

theorem nextUnsolved_le (g : Grid) (p : Nat) : nextUnsolved g p ≤ 81 := by
  unfold nextUnsolved
  by_cases hp : p ≤ 81
  · exact nextUnsolvedFrom_le g (81 - p) p (by omega)
  · have h0 : 81 - p = 0 := by omega
    rw [h0]
    simp [nextUnsolvedFrom]

theorem nextUnsolved_ge (g : Grid) (p : Nat) (hp : p ≤ 81) :
    p ≤ nextUnsolved g p := by
  unfold nextUnsolved
  rcases nextUnsolvedFrom_ge g (81 - p) p with h | h
  · exact h
  · omega

theorem nextUnsolvedFrom_zero (g : Grid) :
    ∀ k p, nextUnsolvedFrom g k p < 81 → k + p ≤ 81 →
      g.getD (nextUnsolvedFrom g k p) 0 = 0 := by
  intro k
  induction k with
  | zero => intro p h _; simp [nextUnsolvedFrom] at h
  | succ k ih =>
    intro p h hk
    simp only [nextUnsolvedFrom] at h ⊢
    by_cases hc : g.getD p 0 = 0
    · rwa [if_pos hc]
    · rw [if_neg hc] at h ⊢
      exact ih (p + 1) h (by omega)

theorem nextUnsolved_zero (g : Grid) (p : Nat)
    (h : nextUnsolved g p < 81) : g.getD (nextUnsolved g p) 0 = 0 := by
  unfold nextUnsolved at *
  by_cases hp : p ≤ 81
  · exact nextUnsolvedFrom_zero g (81 - p) p h (by omega)
  · have : 81 - p = 0 := by omega
    rw [this] at h
    simp [nextUnsolvedFrom] at h

theorem nextUnsolvedFrom_before (g : Grid) :
    ∀ k p i, p ≤ i → i < nextUnsolvedFrom g k p → i - p < k → g.getD i 0 ≠ 0 := by
  intro k
  induction k with
  | zero => intro p i _ _ h; omega
  | succ k ih =>
    intro p i hpi hi hk
    simp only [nextUnsolvedFrom] at hi
    by_cases hc : g.getD p 0 = 0
    · rw [if_pos hc] at hi; omega
    · rw [if_neg hc] at hi
      by_cases hip : i = p
      · rwa [hip]
      · exact ih (p + 1) i (by omega) hi (by omega)

theorem nextUnsolved_before (g : Grid) (p i : Nat) (hpi : p ≤ i)
    (hi : i < nextUnsolved g p) : g.getD i 0 ≠ 0 := by
  unfold nextUnsolved at hi
  by_cases hp : p ≤ 81
  · have hle := nextUnsolvedFrom_le g (81 - p) p (by omega)
    exact nextUnsolvedFrom_before g (81 - p) p i hpi hi (by omega)
  · exfalso
    have h0 : 81 - p = 0 := by omega
    rw [h0] at hi
    simp only [nextUnsolvedFrom] at hi
    omega

/-! Termination: fuel `82 - p` suffices for `solveHelper` from position `p`,
because every recursive call strictly advances the position (it moves to
`next_unsolved(p + 1) > p`) and 81 is the base case. -/

theorem solveHelper_isSome :
    ∀ fuel g p, p ≤ 81 → 82 - p ≤ fuel → (solveHelper fuel g p).isSome = true := by
  intro fuel
  induction fuel with
  | zero =>
    intro g p hp hf
    omega
  | succ fuel ih =>
    intro g p hp hf
    by_cases h81 : p = 81
    · subst h81
      simp [solveHelper]
    · have hp81 : p < 81 := by omega
      simp only [solveHelper, if_neg h81]
      have loop : ∀ ns g1, (tryDigits (solveHelper fuel) p g1 ns).isSome = true := by
        intro ns
        induction ns with
        | nil =>
          intro g1
          simp [tryDigits]
        | cons n ns ihn =>
          intro g1
          simp only [tryDigits]
          by_cases hv : valid g1 p n = true
          · rw [if_pos hv]
            have hq_le := nextUnsolved_le (g1.set p n) (p + 1)
            have hq_ge := nextUnsolved_ge (g1.set p n) (p + 1) (by omega)
            have hrec := ih (g1.set p n) (nextUnsolved (g1.set p n) (p + 1)) hq_le (by omega)
            rcases hrec_eq : solveHelper fuel (g1.set p n) (nextUnsolved (g1.set p n) (p + 1))
                with _ | ⟨b, g3⟩
            · rw [hrec_eq] at hrec
              simp at hrec
            · cases b
              · exact ihn g3
              · rfl
          · rw [if_neg hv]
            exact ihn g1
      exact loop [1, 2, 3, 4, 5, 6, 7, 8, 9] g

/-- Backtracking restoration: a failing `solve_helper(p)` hands back the grid
it was given with `grid[p]` reset to 0 (and untouched at the sentinel). -/
theorem solveHelper_false_restore :
    ∀ fuel g p g2, solveHelper fuel g p = some (false, g2) →
      g2 = if p = 81 then g else g.set p 0 := by
  intro fuel
  induction fuel with
  | zero =>
    intro g p g2 h
    simp [solveHelper] at h
  | succ fuel ih =>
    intro g p g2 h
    by_cases h81 : p = 81
    · subst h81
      rw [show solveHelper (fuel + 1) g 81 = some (solved g, g) from rfl] at h
      simp only [Option.some.injEq, Prod.mk.injEq] at h
      rw [if_pos rfl]
      exact h.2.symm
    · rw [if_neg h81]
      simp only [solveHelper, if_neg h81] at h
      have loop : ∀ ns g1, tryDigits (solveHelper fuel) p g1 ns = some (false, g2) →
          g2 = g1.set p 0 := by
        intro ns
        induction ns with
        | nil =>
          intro g1 htd
          simp only [tryDigits, Option.some.injEq, Prod.mk.injEq] at htd
          exact htd.2.symm
        | cons n ns ihn =>
          intro g1 htd
          simp only [tryDigits] at htd
          by_cases hv : valid g1 p n = true
          · rw [if_pos hv] at htd
            rcases hrec : solveHelper fuel (g1.set p n) (nextUnsolved (g1.set p n) (p + 1))
                with _ | ⟨b, g3⟩
            · rw [hrec] at htd
              simp at htd
            · rw [hrec] at htd
              cases b
              · have hg3 : g3 = g1.set p n := by
                  have := ih (g1.set p n) (nextUnsolved (g1.set p n) (p + 1)) g3 hrec
                  by_cases hq : nextUnsolved (g1.set p n) (p + 1) = 81
                  · rwa [if_pos hq] at this
                  · rw [if_neg hq] at this
                    have hz : (g1.set p n).getD (nextUnsolved (g1.set p n) (p + 1)) 0 = 0 :=
                      nextUnsolved_zero (g1.set p n) (p + 1)
                        (lt_of_le_of_ne (nextUnsolved_le _ _) hq)
                    rw [this, set_zero_eq_self _ _ hz]
                have := ihn g3 htd
                rw [this, hg3, List.set_set]
              · simp at htd
          · rw [if_neg hv] at htd
            exact ihn g1 htd
      exact loop [1, 2, 3, 4, 5, 6, 7, 8, 9] g h

/-- Restoration specialised to the call shape of the code: a failing recursive
call entered at a `next_unsolved` position hands the grid back unchanged. -/
theorem solveHelper_false_id (fuel : Nat) (g : Grid) (r : Nat) (g2 : Grid)
    (h : solveHelper fuel g (nextUnsolved g r) = some (false, g2)) : g2 = g := by
  have hres := solveHelper_false_restore fuel g (nextUnsolved g r) g2 h
  by_cases hq : nextUnsolved g r = 81
  · rwa [if_pos hq] at hres
  · rw [if_neg hq] at hres
    have hz : g.getD (nextUnsolved g r) 0 = 0 :=
      nextUnsolved_zero g r (lt_of_le_of_ne (nextUnsolved_le _ _) hq)
    rw [hres, set_zero_eq_self _ _ hz]

/-- Soundness of a successful search: the final grid passes `solved`, keeps
length 81, agrees with the entry grid on its non-zero cells (the entry
position being an empty cell, as in every actual call), and every cell is
either untouched or holds a digit 1..9. -/
theorem solveHelper_sound :
    ∀ fuel g p gf, g.length = 81 → p ≤ 81 → (p < 81 → g.getD p 0 = 0) →
      solveHelper fuel g p = some (true, gf) →
      solved gf = true ∧ gf.length = 81 ∧
      (∀ i, g.getD i 0 ≠ 0 → gf.getD i 0 = g.getD i 0) ∧
      (∀ i, gf.getD i 0 = g.getD i 0 ∨ (1 ≤ gf.getD i 0 ∧ gf.getD i 0 ≤ 9)) := by
  intro fuel
  induction fuel with
  | zero =>
    intro g p gf _ _ _ h
    simp [solveHelper] at h
  | succ fuel ih =>
    intro g p gf hlen hp hp0 h
    by_cases h81 : p = 81
    · subst h81
      rw [show solveHelper (fuel + 1) g 81 = some (solved g, g) from rfl] at h
      simp only [Option.some.injEq, Prod.mk.injEq] at h
      obtain ⟨hs, hg⟩ := h
      subst hg
      exact ⟨hs, hlen, fun i _ => rfl, fun i => Or.inl rfl⟩
    · have hp81 : p < 81 := by omega
      simp only [solveHelper, if_neg h81] at h
      have loop : ∀ ns, (∀ n ∈ ns, 1 ≤ n ∧ n ≤ 9) →
          ∀ g1, g1.length = 81 →
          tryDigits (solveHelper fuel) p g1 ns = some (true, gf) →
          solved gf = true ∧ gf.length = 81 ∧
          (∀ i, i ≠ p → g1.getD i 0 ≠ 0 → gf.getD i 0 = g1.getD i 0) ∧
          (∀ i, i ≠ p → (gf.getD i 0 = g1.getD i 0 ∨ (1 ≤ gf.getD i 0 ∧ gf.getD i 0 ≤ 9))) ∧
          (gf.getD p 0 = g1.getD p 0 ∨ (1 ≤ gf.getD p 0 ∧ gf.getD p 0 ≤ 9)) := by
        intro ns
        induction ns with
        | nil =>
          intro _ g1 _ htd
          simp [tryDigits] at htd
        | cons n ns ihn =>
          intro hns g1 hlen1 htd
          have hn19 := hns n (List.mem_cons_self n ns)
          simp only [tryDigits] at htd
          by_cases hv : valid g1 p n = true
          · rw [if_pos hv] at htd
            rcases hrec : solveHelper fuel (g1.set p n) (nextUnsolved (g1.set p n) (p + 1))
                with _ | ⟨b, g3⟩
            · rw [hrec] at htd
              simp at htd
            · rw [hrec] at htd
              cases b
              · have hg3 : g3 = g1.set p n :=
                  solveHelper_false_id fuel (g1.set p n) (p + 1) g3 hrec
                have hres := ihn (fun m hm => hns m (List.mem_cons_of_mem n hm)) g3
                  (by rw [hg3, List.length_set]; exact hlen1) htd
                refine ⟨hres.1, hres.2.1, ?_, ?_, ?_⟩
                · intro i hip hiz
                  have h2 := hres.2.2.1 i hip
                  rw [hg3, getD_set_ne g1 n (Ne.symm hip)] at h2
                  exact h2 hiz
                · intro i hip
                  have h2 := hres.2.2.2.1 i hip
                  rwa [hg3, getD_set_ne g1 n (Ne.symm hip)] at h2
                · rcases hres.2.2.2.2 with h2 | h2
                  · rw [hg3, getD_set_self g1 n (by omega)] at h2
                    exact Or.inr (by omega)
                  · exact Or.inr h2
              · simp only [Option.some.injEq, Prod.mk.injEq] at htd
                obtain ⟨-, hg3f⟩ := htd
                subst hg3f
                have hres := ih (g1.set p n) (nextUnsolved (g1.set p n) (p + 1)) g3
                  (by rw [List.length_set]; exact hlen1)
                  (nextUnsolved_le _ _)
                  (fun hlt => nextUnsolved_zero _ _ hlt) hrec
                obtain ⟨hsol, hlen3, hagree, hbound⟩ := hres
                refine ⟨hsol, hlen3, ?_, ?_, ?_⟩
                · intro i hip hiz
                  have h2 := hagree i (by rw [getD_set_ne g1 n (Ne.symm hip)]; exact hiz)
                  rwa [getD_set_ne g1 n (Ne.symm hip)] at h2
                · intro i hip
                  rcases hbound i with h2 | h2
                  · rw [getD_set_ne g1 n (Ne.symm hip)] at h2
                    exact Or.inl h2
                  · exact Or.inr h2
                · have hsetp : (g1.set p n).getD p 0 = n := getD_set_self g1 n (by omega)
                  have h2 := hagree p (by rw [hsetp]; omega)
                  rw [hsetp] at h2
                  exact Or.inr (by omega)
          · rw [if_neg hv] at htd
            exact ihn (fun m hm => hns m (List.mem_cons_of_mem n hm)) g1 hlen1 htd
      have hres := loop [1, 2, 3, 4, 5, 6, 7, 8, 9] (by decide) g hlen h
      obtain ⟨hsol, hlenf, hagree, hbound, hpc⟩ := hres
      refine ⟨hsol, hlenf, ?_, ?_⟩
      · intro i hiz
        by_cases hip : i = p
        · subst hip
          exact absurd (hp0 hp81) hiz
        · exact hagree i hip hiz
      · intro i
        by_cases hip : i = p
        · subst hip
          exact hpc
        · exact hbound i hip

/-- Completeness of the search: if some full valid grid extends the current
grid, the search starting at `p` succeeds, provided every cell before `p` is
already filled. -/
theorem solveHelper_complete :
    ∀ fuel g p gf, g.length = 81 → p ≤ 81 → 82 - p ≤ fuel →
      (∀ i, i < p → g.getD i 0 ≠ 0) →
      (∀ i, i < 81 → i ≠ p → g.getD i 0 ≠ 0 → gf.getD i 0 = g.getD i 0) →
      FullValid gf →
      ∃ gf2, solveHelper fuel g p = some (true, gf2) := by
  intro fuel
  induction fuel with
  | zero =>
    intro g p gf _ hp hf _ _ _
    omega
  | succ fuel ih =>
    intro g p gf hlen hp hf hfilled hagree hfv
    obtain ⟨hflen, hbounds, hpair⟩ := hfv
    by_cases h81 : p = 81
    · subst h81
      refine ⟨g, ?_⟩
      rw [show solveHelper (fuel + 1) g 81 = some (solved g, g) from rfl]
      have hgq : ∀ q, q < 81 → g.getD q 0 = gf.getD q 0 := fun q hq =>
        (hagree q hq (by omega) (hfilled q hq)).symm
      have hsol : solved g = true := by
        rw [solved_eq_true_iff]
        intro q hq
        rw [hlen] at hq
        refine ⟨hfilled q hq, ?_⟩
        rw [valid_congr q (g.getD q 0) hq hgq, valid_eq_true_iff gf q _ hq, hgq q hq]
        intro r hr hrq hu
        exact hpair r q hr hq hrq (sameUnit_symm hu)
      rw [hsol]
    · have hp81 : p < 81 := by omega
      have hm19 : 1 ≤ gf.getD p 0 ∧ gf.getD p 0 ≤ 9 := hbounds p hp81
      have hvalid_m : ∀ g1 : Grid,
          (∀ i, i < 81 → i ≠ p → g1.getD i 0 ≠ 0 → gf.getD i 0 = g1.getD i 0) →
          valid g1 p (gf.getD p 0) = true := by
        intro g1 hag
        rw [valid_eq_true_iff g1 p _ hp81]
        intro q hq hqp hu
        by_cases hz : g1.getD q 0 = 0
        · rw [hz]
          omega
        · rw [← hag q hq hqp hz]
          exact hpair q p hq hp81 hqp (sameUnit_symm hu)
      simp only [solveHelper, if_neg h81]
      have loop : ∀ ns g1, gf.getD p 0 ∈ ns → g1.length = 81 →
          (∀ i, i < p → g1.getD i 0 ≠ 0) →
          (∀ i, i < 81 → i ≠ p → g1.getD i 0 ≠ 0 → gf.getD i 0 = g1.getD i 0) →
          ∃ gf2, tryDigits (solveHelper fuel) p g1 ns = some (true, gf2) := by
        intro ns
        induction ns with
        | nil =>
          intro g1 hmem _ _ _
          simp at hmem
        | cons n ns ihn =>
          intro g1 hmem hlen1 hfill1 hag1
          simp only [tryDigits]
          by_cases hv : valid g1 p n = true
          · rw [if_pos hv]
            rcases hrec : solveHelper fuel (g1.set p n) (nextUnsolved (g1.set p n) (p + 1))
                with _ | ⟨b, g3⟩
            · exfalso
              have hsome := solveHelper_isSome fuel (g1.set p n)
                (nextUnsolved (g1.set p n) (p + 1)) (nextUnsolved_le _ _)
                (by have := nextUnsolved_ge (g1.set p n) (p + 1) (by omega); omega)
              rw [hrec] at hsome
              simp at hsome
            · cases b
              · have hg3 : g3 = g1.set p n :=
                  solveHelper_false_id fuel (g1.set p n) (p + 1) g3 hrec
                have hnm : n ≠ gf.getD p 0 := by
                  intro hEq
                  have hfill2 : ∀ i, i < nextUnsolved (g1.set p n) (p + 1) →
                      (g1.set p n).getD i 0 ≠ 0 := by
                    intro i hi
                    by_cases hip : i = p
                    · subst hip
                      rw [getD_set_self g1 n (by omega), hEq]
                      omega
                    · by_cases hilt : i < p
                      · rw [getD_set_ne g1 n (Ne.symm hip)]
                        exact hfill1 i hilt
                      · exact nextUnsolved_before (g1.set p n) (p + 1) i (by omega) hi
                  have hag2 : ∀ i, i < 81 → i ≠ nextUnsolved (g1.set p n) (p + 1) →
                      (g1.set p n).getD i 0 ≠ 0 → gf.getD i 0 = (g1.set p n).getD i 0 := by
                    intro i hi _ hiz
                    by_cases hip : i = p
                    · subst hip
                      rw [getD_set_self g1 n (by omega), hEq]
                    · rw [getD_set_ne g1 n (Ne.symm hip)] at hiz ⊢
                      exact hag1 i hi hip hiz
                  obtain ⟨gf2, hgf2⟩ := ih (g1.set p n) (nextUnsolved (g1.set p n) (p + 1)) gf
                    (by rw [List.length_set]; exact hlen1)
                    (nextUnsolved_le _ _)
                    (by have := nextUnsolved_ge (g1.set p n) (p + 1) (by omega); omega)
                    hfill2 hag2 ⟨hflen, hbounds, hpair⟩
                  rw [hgf2] at hrec
                  simp at hrec
                have hmem2 : gf.getD p 0 ∈ ns := by
                  rcases List.mem_cons.mp hmem with h2 | h2
                  · exact absurd h2.symm hnm
                  · exact h2
                obtain ⟨gf2, hgf2⟩ := ihn g3 hmem2
                  (by rw [hg3, List.length_set]; exact hlen1)
                  (fun i hi => by
                    rw [hg3, getD_set_ne g1 n (by omega)]
                    exact hfill1 i hi)
                  (fun i hi hip hiz => by
                    rw [hg3, getD_set_ne g1 n (Ne.symm hip)] at hiz ⊢
                    exact hag1 i hi hip hiz)
                exact ⟨gf2, hgf2⟩
              · exact ⟨g3, rfl⟩
          · rw [if_neg hv]
            have hnm : n ≠ gf.getD p 0 := by
              intro hEq
              rw [hEq] at hv
              exact hv (hvalid_m g1 hag1)
            have hmem2 : gf.getD p 0 ∈ ns := by
              rcases List.mem_cons.mp hmem with h2 | h2
              · exact absurd h2.symm hnm
              · exact h2
            exact ihn g1 hmem2 hlen1 hfill1 hag1
      have hmem : gf.getD p 0 ∈ [1, 2, 3, 4, 5, 6, 7, 8, 9] := by
        simp only [List.mem_cons, List.not_mem_nil, or_false]
        omega
      exact loop [1, 2, 3, 4, 5, 6, 7, 8, 9] g hmem hlen hfilled hagree

/-- Fuel 82 always suffices for the top-level call, so `solve` is the content
of the `solveHelper` run. -/
theorem solve_spec (g : Grid) :
    solveHelper 82 g (nextUnsolved g 0) = some (solve g) := by
  have h := solveHelper_isSome 82 g (nextUnsolved g 0) (nextUnsolved_le g 0) (by omega)
  rcases he : solveHelper 82 g (nextUnsolved g 0) with _ | r
  · rw [he] at h
    simp at h
  · simp [solve, he]

theorem solve_true_sound (g : Grid) (hlen : g.length = 81) {gf : Grid}
    (h : solve g = (true, gf)) :
    solved gf = true ∧ gf.length = 81 ∧
    (∀ i, g.getD i 0 ≠ 0 → gf.getD i 0 = g.getD i 0) ∧
    (∀ i, gf.getD i 0 = g.getD i 0 ∨ (1 ≤ gf.getD i 0 ∧ gf.getD i 0 ≤ 9)) := by
  have hsp := solve_spec g
  rw [h] at hsp
  exact solveHelper_sound 82 g (nextUnsolved g 0) gf hlen (nextUnsolved_le g 0)
    (nextUnsolved_zero g 0) hsp

theorem solve_complete (g : Grid) (hlen : g.length = 81) {gf : Grid}
    (hc : Completes g gf) : (solve g).1 = true := by
  obtain ⟨hfv, hagree⟩ := hc
  obtain ⟨gf2, h2⟩ := solveHelper_complete 82 g (nextUnsolved g 0) gf hlen
    (nextUnsolved_le g 0) (by omega)
    (fun i hi => nextUnsolved_before g 0 i (Nat.zero_le i) hi)
    (fun i hi _ hiz => hagree i hi hiz)
    hfv
  have h3 : solve g = (true, gf2) := Option.some.inj ((solve_spec g).symm.trans h2)
  rw [h3]

/-- A grid passing `solved` with all values at most 9 is fully valid in the
spec sense. -/
theorem solved_fullValid {gf : Grid} (hlen : gf.length = 81)
    (hsol : solved gf = true) (hb : ∀ i, i < 81 → gf.getD i 0 ≤ 9) :
    FullValid gf := by
  rw [solved_eq_true_iff] at hsol
  refine ⟨hlen, ?_, ?_⟩
  · intro i hi
    have h2 := (hsol i (by rw [hlen]; exact hi)).1
    exact ⟨by omega, hb i hi⟩
  · intro i j hi hj hij hu
    have h2 := (hsol i (by rw [hlen]; exact hi)).2
    rw [valid_eq_true_iff gf i _ hi] at h2
    exact Ne.symm (h2 j hj (Ne.symm hij) hu)

/-- Projection form of soundness, usable at concrete grids without forcing
evaluation of the search. -/
theorem solve_fst_true_sound (g : Grid) (hlen : g.length = 81)
    (h : (solve g).1 = true) :
    solved (solve g).2 = true ∧ (solve g).2.length = 81 ∧
    (∀ i, g.getD i 0 ≠ 0 → (solve g).2.getD i 0 = g.getD i 0) ∧
    (∀ i, (solve g).2.getD i 0 = g.getD i 0 ∨
      (1 ≤ (solve g).2.getD i 0 ∧ (solve g).2.getD i 0 ≤ 9)) := by
  have hsg : solve g = (true, (solve g).2) := by rw [← h]
  exact solve_true_sound g hlen hsg

/-- Projection form of the failure-restoration property. -/
theorem solve_fst_false_id (g : Grid) (h : (solve g).1 = false) :
    (solve g).2 = g := by
  have hsg : solve g = (false, (solve g).2) := by rw [← h]
  have hsp := solve_spec g
  rw [hsg] at hsp
  exact solveHelper_false_id 82 g 0 (solve g).2 hsp

/-- C1: for every board built from a well-formed 81-character input (so: 81
cells, values at most 9), `solve` returns true exactly when the non-zero
clues extend to a completely filled repeat-free grid, and on success the
final grid is such a completion agreeing with the entry grid on every
non-zero cell. -/
theorem solve_true_iff_completion (g : Grid) (hlen : g.length = 81)
    (hbound : ∀ i, i < 81 → g.getD i 0 ≤ 9) :
    ((solve g).1 = true ↔ ∃ gf, Completes g gf) ∧
    ((solve g).1 = true → Completes g (solve g).2) := by
  have hpart2 : (solve g).1 = true → Completes g (solve g).2 := by
    intro htrue
    have hsg : solve g = (true, (solve g).2) := by
      rw [← htrue]
    obtain ⟨hsol, hlenf, hagree, hbd⟩ := solve_true_sound g hlen hsg
    have hgb : ∀ i, i < 81 → (solve g).2.getD i 0 ≤ 9 := by
      intro i hi
      rcases hbd i with h2 | h2
      · rw [h2]
        exact hbound i hi
      · omega
    exact ⟨solved_fullValid hlenf hsol hgb, fun i _ hiz => hagree i hiz⟩
  refine ⟨⟨fun htrue => ⟨(solve g).2, hpart2 htrue⟩, ?_⟩, hpart2⟩
  rintro ⟨gf, hc⟩
  exact solve_complete g hlen hc

/-- C4: a failed `solve()` leaves the board exactly as it was at entry. -/
theorem solve_false_preserves_grid (g : Grid) (h : (solve g).1 = false) :
    (solve g).2 = g :=
  solve_fst_false_id g h

/-- C8: `solve_helper` entered at any position at most 81 always reaches a
result with fuel 82, because the recursive call position `next_unsolved(p+1)`
strictly exceeds `p` and is bounded by the sentinel 81. -/
theorem solveHelper_terminates (g : Grid) (p : Nat) (hp : p ≤ 81) :
    (solveHelper 82 g p).isSome = true ∧
    (p < 81 → p < nextUnsolved g (p + 1) ∧ nextUnsolved g (p + 1) ≤ 81) := by
  refine ⟨solveHelper_isSome 82 g p hp (by omega),
    fun hlt => ⟨?_, nextUnsolved_le g (p + 1)⟩⟩
  have := nextUnsolved_ge g (p + 1) (by omega)
  omega

/-- C3: `valid(p, n)` returns false exactly when some other cell in p's row,
column, or box holds `n`, and the result never depends on the value stored at
`p` itself. -/
theorem valid_characterisation (g : Grid) (p n : Nat) (hp : p < 81)
    (hn1 : 1 ≤ n) (hn9 : n ≤ 9) :
    (valid g p n = false ↔ ∃ q, q < 81 ∧ q ≠ p ∧ SameUnit p q ∧ g.getD q 0 = n) ∧
    (∀ m, valid (g.set p m) p n = valid g p n) := by
  have hiff := valid_eq_true_iff g p n hp
  constructor
  · constructor
    · intro hfalse
      by_contra hne
      push_neg at hne
      have h2 := hiff.mpr hne
      rw [hfalse] at h2
      exact Bool.false_ne_true h2
    · rintro ⟨q, hq, hqp, hu, hval⟩
      cases hvv : valid g p n
      · rfl
      · exact absurd hval (hiff.mp hvv q hq hqp hu)
  · intro m
    exact valid_set_same_pos g p n m hp

/-! Permutation facts for claim C2. -/

theorem perm_of_nine {L : List Nat} (hlen : L.length = 9) (hnd : L.Nodup)
    (hmem : ∀ a ∈ L, 1 ≤ a ∧ a ≤ 9) :
    L.Perm [1, 2, 3, 4, 5, 6, 7, 8, 9] := by
  have hsub : L ⊆ [1, 2, 3, 4, 5, 6, 7, 8, 9] := by
    intro a ha
    have := hmem a ha
    simp only [List.mem_cons, List.not_mem_nil, or_false]
    omega
  exact (List.subperm_of_subset hnd hsub).perm_of_length_le (by rw [hlen]; rfl)

theorem perm_digits_of_cells {gf : Grid}
    (hbounds : ∀ i, i < 81 → 1 ≤ gf.getD i 0 ∧ gf.getD i 0 ≤ 9)
    (hpair : ∀ i j, i < 81 → j < 81 → i ≠ j → SameUnit i j →
      gf.getD i 0 ≠ gf.getD j 0)
    (pos : Nat → Nat) (hlt : ∀ k, k < 9 → pos k < 81)
    (hinj : ∀ k l, k < 9 → l < 9 → k ≠ l → pos k ≠ pos l)
    (hunit : ∀ k l, k < 9 → l < 9 → SameUnit (pos k) (pos l)) :
    ((List.range 9).map fun k => gf.getD (pos k) 0).Perm [1, 2, 3, 4, 5, 6, 7, 8, 9] := by
  apply perm_of_nine
  · simp
  · refine List.Nodup.map_on ?_ (List.nodup_range 9)
    intro k hk l hl hval
    simp only [List.mem_range] at hk hl
    by_contra hkl
    exact hpair (pos k) (pos l) (hlt k hk) (hlt l hl) (hinj k l hk hl hkl)
      (hunit k l hk hl) hval
  · intro a ha
    simp only [List.mem_map, List.mem_range] at ha
    obtain ⟨k, hk, rfl⟩ := ha
    exact hbounds (pos k) (hlt k hk)

/-- C2: after a successful `solve()`, `solved()` holds, every one of the 81
cells is non-zero, and each row, each column, and each box holds a
permutation of the digits 1 through 9. -/
theorem solve_true_permutations (g : Grid) (hlen : g.length = 81)
    (hbound : ∀ i, i < 81 → g.getD i 0 ≤ 9) (htrue : (solve g).1 = true) :
    solved (solve g).2 = true ∧
    (∀ i, i < 81 → (solve g).2.getD i 0 ≠ 0) ∧
    (∀ u, u < 9 →
      (rowVals (solve g).2 u).Perm [1, 2, 3, 4, 5, 6, 7, 8, 9] ∧
      (colVals (solve g).2 u).Perm [1, 2, 3, 4, 5, 6, 7, 8, 9] ∧
      (boxVals (solve g).2 u).Perm [1, 2, 3, 4, 5, 6, 7, 8, 9]) := by
  have hsg : solve g = (true, (solve g).2) := by
    rw [← htrue]
  obtain ⟨hsol, hlenf, hagree, hbd⟩ := solve_true_sound g hlen hsg
  have hgb : ∀ i, i < 81 → (solve g).2.getD i 0 ≤ 9 := by
    intro i hi
    rcases hbd i with h2 | h2
    · rw [h2]
      exact hbound i hi
    · omega
  obtain ⟨-, hbounds, hpair⟩ := solved_fullValid hlenf hsol hgb
  refine ⟨hsol, fun i hi => by have := hbounds i hi; omega, ?_⟩
  intro u hu
  refine ⟨?_, ?_, ?_⟩
  · exact perm_digits_of_cells hbounds hpair (fun c => u * 9 + c)
      (fun k hk => by show u * 9 + k < 81; omega)
      (fun k l hk hl hkl => by show u * 9 + k ≠ u * 9 + l; omega)
      (fun k l hk hl => Or.inl (by simp only [rowOf]; omega))
  · exact perm_digits_of_cells hbounds hpair (fun r => r * 9 + u)
      (fun k hk => by show k * 9 + u < 81; omega)
      (fun k l hk hl hkl => by show k * 9 + u ≠ l * 9 + u; omega)
      (fun k l hk hl => Or.inr (Or.inl (by simp only [colOf]; omega)))
  · exact perm_digits_of_cells hbounds hpair
      (fun k => (u / 3 * 3 + k / 3) * 9 + (u % 3 * 3 + k % 3))
      (fun k hk => by show (u / 3 * 3 + k / 3) * 9 + (u % 3 * 3 + k % 3) < 81; omega)
      (fun k l hk hl hkl => by
        show (u / 3 * 3 + k / 3) * 9 + (u % 3 * 3 + k % 3) ≠
          (u / 3 * 3 + l / 3) * 9 + (u % 3 * 3 + l % 3)
        omega)
      (fun k l hk hl => Or.inr (Or.inr (by simp only [boxOf]; omega)))

/-! Construction: parsing facts for claims C5 and C6. -/

/-- Spec-side value of an input character: the three blank markers (and '0')
denote 0, a digit character denotes its numeric value. -/
def cellValue (c : Char) : Nat :=
  if c = '.' ∨ c = '_' ∨ c = ' ' then 0 else c.toNat - '0'.toNat

theorem char_le_iff_toNat {a b : Char} : a ≤ b ↔ a.toNat ≤ b.toNat := by
  rw [Char.le_def, UInt32.le_def, BitVec.le_def]
  rfl

theorem allowedChar_toNat {c : Char} (h : allowedChar c = true) : c.toNat < 128 := by
  simp only [allowedChar, Bool.or_eq_true, Bool.and_eq_true, decide_eq_true_eq] at h
  rcases h with ((h | ⟨h1, h2⟩) | h) | h
  · subst h; decide
  · have h9 := char_le_iff_toNat.mp h2
    have : ('9' : Char).toNat = 57 := rfl
    omega
  · subst h; decide
  · subst h; decide

theorem utf8Size_allowed {c : Char} (h : allowedChar c = true) : c.utf8Size = 1 := by
  have h128 := allowedChar_toNat h
  have hle : c.val ≤ 0x7F := by
    rw [UInt32.le_def, BitVec.le_def]
    show c.val.toNat ≤ 127
    exact Nat.le_of_lt_succ h128
  simp [Char.utf8Size, hle]

theorem utf8Length_eq_length :
    ∀ s : List Char, s.all allowedChar = true → utf8Length s = s.length := by
  intro s
  induction s with
  | nil => intro _; rfl
  | cons c cs ih =>
    intro h
    simp only [List.all_cons, Bool.and_eq_true] at h
    simp only [utf8Length, List.map_cons, List.sum_cons, List.length_cons]
    rw [utf8Size_allowed h.1]
    have h2 := ih h.2
    simp only [utf8Length] at h2
    omega

theorem buildGrid_ok_of_allowed :
    ∀ s : List Char, s.all allowedChar = true →
      ∃ g, buildGrid s = .ok g ∧ g.length = s.length ∧
        ∀ i, i < s.length → g.getD i 0 = cellValue (s.getD i ' ') := by
  intro s
  induction s with
  | nil =>
    intro _
    exact ⟨[], rfl, rfl, fun i hi => absurd hi (Nat.not_lt_zero i)⟩
  | cons c cs ih =>
    intro h
    simp only [List.all_cons, Bool.and_eq_true] at h
    obtain ⟨gt, hgt, hlen, hval⟩ := ih h.2
    by_cases hb : c = '.' ∨ c = '_' ∨ c = ' '
    · refine ⟨0 :: gt, ?_, by simp [hlen], ?_⟩
      · simp [buildGrid, if_pos hb, hgt, Except.map]
      · intro i hi
        cases i with
        | zero => simp [List.getD_cons_zero, cellValue, if_pos hb]
        | succ j =>
          simp only [List.getD_cons_succ]
          exact hval j (by simpa using hi)
    · have hdig : '0' ≤ c ∧ c ≤ '9' := by
        have h1 := h.1
        simp only [allowedChar, Bool.or_eq_true, Bool.and_eq_true,
          decide_eq_true_eq] at h1
        rcases h1 with ((h1 | hd) | h1) | h1
        · exact absurd (Or.inr (Or.inr h1)) hb
        · exact hd
        · exact absurd (Or.inl h1) hb
        · exact absurd (Or.inr (Or.inl h1)) hb
      refine ⟨(c.toNat - '0'.toNat) :: gt, ?_, by simp [hlen], ?_⟩
      · simp [buildGrid, if_neg hb, parseDigitChar, if_pos hdig, hgt, Except.map]
      · intro i hi
        cases i with
        | zero => simp [List.getD_cons_zero, cellValue, if_neg hb]
        | succ j =>
          simp only [List.getD_cons_succ]
          exact hval j (by simpa using hi)

theorem buildGrid_cases :
    ∀ s : List Char, (∃ g, buildGrid s = .ok g) ∨ buildGrid s = .error .digitParse := by
  intro s
  induction s with
  | nil => exact Or.inl ⟨[], rfl⟩
  | cons c cs ih =>
    by_cases hb : c = '.' ∨ c = '_' ∨ c = ' '
    · rcases ih with ⟨g, hg⟩ | hg
      · exact Or.inl ⟨0 :: g, by simp [buildGrid, if_pos hb, hg, Except.map]⟩
      · exact Or.inr (by simp [buildGrid, if_pos hb, hg, Except.map])
    · rcases hp : parseDigitChar c with _ | d
      · exact Or.inr (by simp [buildGrid, if_neg hb, hp])
      · rcases ih with ⟨g, hg⟩ | hg
        · exact Or.inl ⟨d :: g, by simp [buildGrid, if_neg hb, hp, hg, Except.map]⟩
        · exact Or.inr (by simp [buildGrid, if_neg hb, hp, hg, Except.map])

/-- C5 (amended): `Board::new` measures length as Rust `String::len` does, in
UTF-8 bytes. It fails with the length-mismatch error exactly when the byte
length differs from 81; among 81-byte inputs it fails with the
invalid-character error exactly when some character lies outside
`{0-9, '.', '_', ' '}`; it succeeds in every remaining case; and the two
error kinds are distinguishable. -/
theorem boardNew_error_classification (s : List Char) :
    (boardNew s = .error .lengthMismatch ↔ utf8Length s ≠ 81) ∧
    (utf8Length s = 81 →
      (boardNew s = .error .invalidChar ↔ ∃ c ∈ s, allowedChar c = false)) ∧
    (utf8Length s = 81 → s.all allowedChar = true → ∃ g, boardNew s = .ok g) ∧
    NewError.lengthMismatch ≠ NewError.invalidChar := by
  refine ⟨⟨?_, ?_⟩, fun h81 => ⟨?_, ?_⟩, fun h81 hall => ?_, by decide⟩
  · intro h heq
    rw [boardNew, if_neg (by omega)] at h
    by_cases hall : s.all allowedChar = true
    · rw [if_neg (fun hc => hc hall)] at h
      rcases buildGrid_cases s with ⟨g, hg⟩ | hg <;> rw [hg] at h <;> simp at h
    · rw [if_pos hall] at h
      simp at h
  · intro h
    rw [boardNew, if_pos h]
  · intro h
    rw [boardNew, if_neg (by omega)] at h
    by_cases hall : s.all allowedChar = true
    · rw [if_neg (fun hc => hc hall)] at h
      rcases buildGrid_cases s with ⟨g, hg⟩ | hg <;> rw [hg] at h <;> simp at h
    · rw [List.all_eq_true] at hall
      push_neg at hall
      obtain ⟨c, hc, hcb⟩ := hall
      exact ⟨c, hc, by simpa using hcb⟩
  · rintro ⟨c, hc, hcb⟩
    have hnall : ¬ s.all allowedChar = true := by
      rw [List.all_eq_true]
      intro hcontra
      have h2 := hcontra c hc
      rw [hcb] at h2
      exact Bool.false_ne_true h2
    rw [boardNew, if_neg (by omega), if_pos hnall]
  · obtain ⟨g, hg, -, -⟩ := buildGrid_ok_of_allowed s hall
    exact ⟨g, by rw [boardNew, if_neg (by omega), if_neg (fun hc => hc hall), hg]⟩

/-- Concrete input for the C5 counterexample: 81 characters, the first of
which is a two-byte character outside the allowed set. -/
def badInput : List Char := 'é' :: List.replicate 80 '0'

/-- C5 counterexample: this 81-character input contains a character outside
the allowed set, yet construction reports the length-mismatch error (its
UTF-8 byte length is 82), not the invalid-character error as the claim,
read over characters, requires. -/
theorem boardNew_char_count_counterexample :
    badInput.length = 81 ∧ (∃ c ∈ badInput, allowedChar c = false) ∧
    boardNew badInput = .error .lengthMismatch ∧
    boardNew badInput ≠ .error .invalidChar := by
  have h1 : boardNew badInput = .error .lengthMismatch := by rfl
  refine ⟨by decide, ⟨'é', List.mem_cons_self _ _, by decide⟩, h1, ?_⟩
  intro hcontra
  rw [h1] at hcontra
  simp at hcontra

/-- C6: every 81-character input drawn from the digits and the three blank
markers parses successfully into an 81-cell grid whose i-th cell holds the
value denoted by the i-th character (0 for blanks and '0'). -/
theorem boardNew_roundtrip (s : List Char) (hlen : s.length = 81)
    (hall : s.all allowedChar = true) :
    ∃ g, boardNew s = .ok g ∧ g.length = 81 ∧
      ∀ i, i < 81 → g.getD i 0 = cellValue (s.getD i ' ') := by
  have h81 : utf8Length s = 81 := by rw [utf8Length_eq_length s hall, hlen]
  obtain ⟨g, hg, hglen, hval⟩ := buildGrid_ok_of_allowed s hall
  refine ⟨g, ?_, by rw [hglen, hlen], fun i hi => hval i (by rw [hlen]; exact hi)⟩
  rw [boardNew, if_neg (by omega), if_neg (fun hc => hc hall), hg]

/-! Trace-instrumented search for claim C7: the same recursion as
`solveHelper`, additionally returning every grid state the search writes (the
state right after each `grid[p] = n` store and after each `grid[p] = 0`
reset), in execution order. -/

def tryDigitsT (rec : Grid → Nat → Option ((Bool × Grid) × List Grid)) (p : Nat) :
    Grid → List Nat → Option ((Bool × Grid) × List Grid)
  | g, [] => some ((false, g.set p 0), [g.set p 0])
  | g, n :: ns =>
    if valid g p n then
      match rec (g.set p n) (nextUnsolved (g.set p n) (p + 1)) with
      | none => none
      | some ((true, g2), tr) => some ((true, g2), g.set p n :: tr)
      | some ((false, g2), tr) =>
        match tryDigitsT rec p g2 ns with
        | none => none
        | some (r, tr2) => some (r, g.set p n :: (tr ++ tr2))
    else tryDigitsT rec p g ns

def solveHelperT : Nat → Grid → Nat → Option ((Bool × Grid) × List Grid)
  | 0, _, _ => none
  | fuel + 1, g, p =>
    if p = 81 then some ((solved g, g), [])
    else tryDigitsT (solveHelperT fuel) p g [1, 2, 3, 4, 5, 6, 7, 8, 9]

/-- The trace-instrumented search computes exactly the plain search, plus the
trace. -/
theorem solveHelperT_fst :
    ∀ fuel g p, (solveHelperT fuel g p).map Prod.fst = solveHelper fuel g p := by
  intro fuel
  induction fuel with
  | zero =>
    intro g p
    rfl
  | succ fuel ih =>
    intro g p
    by_cases h81 : p = 81
    · subst h81
      rfl
    · simp only [solveHelperT, solveHelper, if_neg h81]
      have loop : ∀ ns g1, (tryDigitsT (solveHelperT fuel) p g1 ns).map Prod.fst =
          tryDigits (solveHelper fuel) p g1 ns := by
        intro ns
        induction ns with
        | nil =>
          intro g1
          rfl
        | cons n ns ihn =>
          intro g1
          simp only [tryDigitsT, tryDigits]
          by_cases hv : valid g1 p n = true
          · rw [if_pos hv, if_pos hv]
            have hrec := ih (g1.set p n) (nextUnsolved (g1.set p n) (p + 1))
            rcases hT : solveHelperT fuel (g1.set p n) (nextUnsolved (g1.set p n) (p + 1))
                with _ | ⟨⟨b, g2⟩, tr⟩
            · rw [hT] at hrec
              rw [← hrec]
              rfl
            · rw [hT] at hrec
              rw [← hrec]
              cases b
              · show Option.map Prod.fst
                    (match tryDigitsT (solveHelperT fuel) p g2 ns with
                      | none => none
                      | some (r, tr2) => some (r, List.set g1 p n :: (tr ++ tr2))) =
                  tryDigits (solveHelper fuel) p g2 ns
                have h2 := ihn g2
                rcases hT2 : tryDigitsT (solveHelperT fuel) p g2 ns with _ | ⟨r2, tr2⟩
                · rw [hT2] at h2
                  exact h2
                · rw [hT2] at h2
                  exact h2
              · rfl
          · rw [if_neg hv, if_neg hv]
            exact ihn g1
      exact loop [1, 2, 3, 4, 5, 6, 7, 8, 9] g

/-! Preservation of the consistency invariant by the writes of the search. -/

theorem getD_set_zero (g : Grid) (p : Nat) : (g.set p 0).getD p 0 = 0 := by
  by_cases hl : p < g.length
  · exact getD_set_self g 0 hl
  · rw [List.getD_eq_getElem?_getD, List.getElem?_eq_none (by rw [List.length_set]; omega)]
    rfl

/-- Storing a digit that passes `valid` into a consistent grid keeps it
consistent. -/
theorem consistent_set {g : Grid} (hlen : g.length = 81) (hc : Consistent g)
    {p n : Nat} (hp : p < 81) (hn1 : 1 ≤ n) (hn9 : n ≤ 9)
    (hv : valid g p n = true) : Consistent (g.set p n) := by
  intro q hq hqz
  by_cases hqp : q = p
  · subst hqp
    rw [getD_set_self g n (by omega)] at hqz ⊢
    rw [valid_set_same_pos g q n n hq]
    exact hv
  · rw [getD_set_ne g n (Ne.symm hqp)] at hqz ⊢
    rw [valid_eq_true_iff _ q _ hq]
    intro r hr hrq hu
    by_cases hrp : r = p
    · subst hrp
      rw [getD_set_self g n (by omega)]
      have h2 := (valid_eq_true_iff g r n hp).mp hv q hq hqp (sameUnit_symm hu)
      exact Ne.symm h2
    · rw [getD_set_ne g n (Ne.symm hrp)]
      exact (valid_eq_true_iff g q _ hq).mp (hc q hq hqz) r hr hrq hu

/-- Resetting a cell to 0 keeps a grid consistent. -/
theorem consistent_set_zero {g : Grid} (hc : Consistent g) (p : Nat) :
    Consistent (g.set p 0) := by
  intro q hq hqz
  by_cases hqp : q = p
  · subst hqp
    rw [getD_set_zero g q] at hqz
    exact absurd rfl hqz
  · rw [getD_set_ne g 0 (Ne.symm hqp)] at hqz ⊢
    rw [valid_eq_true_iff _ q _ hq]
    intro r hr hrq hu
    by_cases hrp : r = p
    · subst hrp
      rw [getD_set_zero g r]
      exact Ne.symm hqz
    · rw [getD_set_ne g 0 (Ne.symm hrp)]
      exact (valid_eq_true_iff g q _ hq).mp (hc q hq hqz) r hr hrq hu

/-- Every state in the trace of a search started on a consistent grid is
consistent, and so is the final grid. -/
theorem solveHelperT_consistent :
    ∀ fuel g p r tr, g.length = 81 → p ≤ 81 → Consistent g →
      solveHelperT fuel g p = some (r, tr) →
      (∀ s ∈ tr, Consistent s) ∧ Consistent r.2 ∧ r.2.length = 81 := by
  intro fuel
  induction fuel with
  | zero =>
    intro g p r tr _ _ _ h
    simp [solveHelperT] at h
  | succ fuel ih =>
    intro g p r tr hlen hp hcons h
    by_cases h81 : p = 81
    · subst h81
      rw [show solveHelperT (fuel + 1) g 81 = some ((solved g, g), []) from rfl] at h
      simp only [Option.some.injEq, Prod.mk.injEq] at h
      obtain ⟨hr, htr⟩ := h
      subst htr
      rw [← hr]
      exact ⟨fun s hs => absurd hs (List.not_mem_nil s), hcons, hlen⟩
    · have hp81 : p < 81 := by omega
      simp only [solveHelperT, if_neg h81] at h
      have loop : ∀ ns g1 r1 tw, g1.length = 81 → Consistent g1 →
          (∀ n ∈ ns, 1 ≤ n ∧ n ≤ 9) →
          tryDigitsT (solveHelperT fuel) p g1 ns = some (r1, tw) →
          (∀ s ∈ tw, Consistent s) ∧ Consistent r1.2 ∧ r1.2.length = 81 := by
        intro ns
        induction ns with
        | nil =>
          intro g1 r1 tw hlen1 hc1 _ htd
          simp only [tryDigitsT, Option.some.injEq, Prod.mk.injEq] at htd
          obtain ⟨hr, htr⟩ := htd
          subst htr
          rw [← hr]
          refine ⟨?_, consistent_set_zero hc1 p, by rw [List.length_set]; exact hlen1⟩
          intro s hs
          rw [List.mem_singleton] at hs
          subst hs
          exact consistent_set_zero hc1 p
        | cons n ns ihn =>
          intro g1 r1 tw hlen1 hc1 hns htd
          have hn19 := hns n (List.mem_cons_self n ns)
          simp only [tryDigitsT] at htd
          by_cases hv : valid g1 p n = true
          · rw [if_pos hv] at htd
            have hcset : Consistent (g1.set p n) :=
              consistent_set hlen1 hc1 hp81 hn19.1 hn19.2 hv
            have hlenset : (g1.set p n).length = 81 := by
              rw [List.length_set]; exact hlen1
            rcases hT : solveHelperT fuel (g1.set p n) (nextUnsolved (g1.set p n) (p + 1))
                with _ | ⟨⟨b, g2⟩, tr1⟩
            · rw [hT] at htd
              simp at htd
            · rw [hT] at htd
              have hrec := ih (g1.set p n) (nextUnsolved (g1.set p n) (p + 1)) (b, g2) tr1
                hlenset (nextUnsolved_le _ _) hcset hT
              cases b
              · replace htd : (match tryDigitsT (solveHelperT fuel) p g2 ns with
                    | none => none
                    | some (r2, tr2) => some (r2, List.set g1 p n :: (tr1 ++ tr2))) =
                    some (r1, tw) := htd
                rcases hT2 : tryDigitsT (solveHelperT fuel) p g2 ns with _ | ⟨r2, tr2⟩
                · rw [hT2] at htd
                  simp at htd
                · rw [hT2] at htd
                  simp only [Option.some.injEq, Prod.mk.injEq] at htd
                  obtain ⟨hr, htr⟩ := htd
                  subst htr
                  have hres2 := ihn g2 r2 tr2 hrec.2.2 hrec.2.1
                    (fun m hm => hns m (List.mem_cons_of_mem n hm)) hT2
                  rw [← hr]
                  refine ⟨?_, hres2.2.1, hres2.2.2⟩
                  intro s hs
                  rcases List.mem_cons.mp hs with hs1 | hs1
                  · subst hs1
                    exact hcset
                  · rcases List.mem_append.mp hs1 with hs2 | hs2
                    · exact hrec.1 s hs2
                    · exact hres2.1 s hs2
              · simp only [Option.some.injEq, Prod.mk.injEq] at htd
                obtain ⟨hr, htr⟩ := htd
                subst htr
                rw [← hr]
                refine ⟨?_, hrec.2.1, hrec.2.2⟩
                intro s hs
                rcases List.mem_cons.mp hs with hs1 | hs1
                · subst hs1
                  exact hcset
                · exact hrec.1 s hs1
          · rw [if_neg hv] at htd
            exact ihn g1 r1 tw hlen1 hc1 (fun m hm => hns m (List.mem_cons_of_mem n hm)) htd
      exact loop [1, 2, 3, 4, 5, 6, 7, 8, 9] g r tr hlen hcons (by decide) h

/-- C7 (amended): if the grid is consistent at entry to `solve()` — no two
equal non-zero cells share a row, column, or box — then every intermediate
grid state written by the search and the final grid are consistent as well:
the algorithm never stores a digit that conflicts with a non-zero cell
present at store time. For inputs whose clues already conflict the invariant
fails at entry and in later states; see the counterexample. -/
theorem solve_trace_consistent (g : Grid) (hlen : g.length = 81)
    (hcons : Consistent g) :
    ∀ r tr, solveHelperT 82 g (nextUnsolved g 0) = some (r, tr) →
      r = solve g ∧ (∀ s ∈ g :: tr, Consistent s) ∧ Consistent (solve g).2 := by
  intro r tr hT
  have hfst := solveHelperT_fst 82 g (nextUnsolved g 0)
  rw [hT, solve_spec g] at hfst
  have hr : r = solve g := Option.some.inj hfst
  have hres := solveHelperT_consistent 82 g (nextUnsolved g 0) r tr hlen
    (nextUnsolved_le g 0) hcons hT
  refine ⟨hr, ?_, by rw [← hr]; exact hres.2.1⟩
  intro s hs
  rcases List.mem_cons.mp hs with hs1 | hs1
  · subst hs1
    exact hcons
  · exact hres.1 s hs1

/-- Board with two conflicting clues, for the C7 counterexample and the
spec's unsolvable scenario: two 5s in row 0, all other cells empty. -/
def conflictGrid : Grid := 5 :: 5 :: List.replicate 79 0

/-- C7 counterexample: on this board the claimed invariant fails. The grid
state after execution of `solve()` (equal to the entry state: the search
fails and restores it) holds the non-zero cell 0 whose value 5 conflicts
with cell 1 in the same row, so it is not the case that in every state
reached during and after the search every non-zero cell satisfies the
uniqueness constraint. -/
theorem solve_inconsistent_state_counterexample :
    (solve conflictGrid).2 = conflictGrid ∧
    conflictGrid.getD 0 0 ≠ 0 ∧
    valid conflictGrid 0 (conflictGrid.getD 0 0) = false ∧
    ¬ Consistent (solve conflictGrid).2 := by
  have hlen : conflictGrid.length = 81 := by decide
  have hfalse : (solve conflictGrid).1 = false := by
    by_contra hb
    rw [Bool.not_eq_false] at hb
    obtain ⟨hsol, hlenf, hagree, -⟩ := solve_fst_true_sound conflictGrid hlen hb
    have h0 := hagree 0 (by decide)
    have h1 := hagree 1 (by decide)
    rw [solved_eq_true_iff] at hsol
    have hv := (hsol 0 (by rw [hlenf]; omega)).2
    rw [valid_eq_true_iff _ 0 _ (by omega)] at hv
    have h2 := hv 1 (by omega) (by omega) (Or.inl (by decide))
    rw [h0, h1] at h2
    exact h2 (by decide)
  have hid : (solve conflictGrid).2 = conflictGrid :=
    solve_fst_false_id conflictGrid hfalse
  refine ⟨hid, by decide, by decide, ?_⟩
  rw [hid]
  intro hcontra
  exact absurd (hcontra 0 (by omega) (by decide)) (by decide)

/-! Checked variants for claim C10: every cell access goes through `List.get?`
or an explicit bounds test, returning `none` exactly where the Rust indexing
`self.grid[i]` would panic. Each mirrors the loop structure of its total
counterpart; a read guarded by a short-circuit condition in the source is
performed here only when the guard passes. -/

/-- Checked cell read `self.grid[k]`: the value when the index is in bounds,
`none` (the panic) otherwise. -/
def getC (g : Grid) (k : Nat) : Option Nat :=
  if k < g.length then some (g.getD k 0) else none

/-- Checked cell write `self.grid[p] = v`. -/
def setC (g : Grid) (p v : Nat) : Option Grid :=
  if p < g.length then some (g.set p v) else none

/-- Checked row-and-column scan of `Board::valid`, in loop order. -/
def validRowColC (g : Grid) (x y n : Nat) : List Nat → Option Bool
  | [] => some true
  | i :: is =>
    (if i = x then some false
     else (getC g (y * 9 + i)).map fun a => decide (a = n)).bind fun hitRow =>
      if hitRow then some false
      else
        (if i = y then some false
         else (getC g (i * 9 + x)).map fun a => decide (a = n)).bind fun hitCol =>
          if hitCol then some false else validRowColC g x y n is

/-- Checked inner box scan (the `dy` loop) of `Board::valid`. -/
def validBoxColC (g : Grid) (x y n dx : Nat) : List Nat → Option Bool
  | [] => some true
  | dy :: dys =>
    if y / 3 * 3 + dy = y ∧ x / 3 * 3 + dx = x then validBoxColC g x y n dx dys
    else
      (getC g ((y / 3 * 3 + dy) * 9 + (x / 3 * 3 + dx))).bind fun a =>
        if a = n then some false else validBoxColC g x y n dx dys

/-- Checked outer box scan (the `dx` loop) of `Board::valid`. -/
def validBoxC (g : Grid) (x y n : Nat) : List Nat → Option Bool
  | [] => some true
  | dx :: dxs =>
    (validBoxColC g x y n dx (List.range 3)).bind fun ok =>
      if ok then validBoxC g x y n dxs else some false

/-- Checked `Board::valid`. -/
def validC (g : Grid) (p n : Nat) : Option Bool :=
  (validRowColC g (p % 9) (p / 9) n (List.range 9)).bind fun ok =>
    if ok then validBoxC g (p % 9) (p / 9) n (List.range 3) else some false

/-- Checked cell loop of `Board::solved`; the iterated values themselves come
from the vector iterator (no indexing), each `valid` call is checked. -/
def solvedFromC (g : Grid) : List Nat → Option Bool
  | [] => some true
  | p :: ps =>
    if g.getD p 0 = 0 then some false
    else (validC g p (g.getD p 0)).bind fun v =>
      if v then solvedFromC g ps else some false

/-- Checked `Board::solved`. -/
def solvedC (g : Grid) : Option Bool := solvedFromC g (List.range g.length)

/-- Checked loop of `Board::next_unsolved`. -/
def nextUnsolvedFromC (g : Grid) : Nat → Nat → Option Nat
  | 0, _ => some 81
  | k + 1, p =>
    (getC g p).bind fun a => if a = 0 then some p else nextUnsolvedFromC g k (p + 1)

/-- Checked `Board::next_unsolved`. -/
def nextUnsolvedC (g : Grid) (p : Nat) : Option Nat := nextUnsolvedFromC g (81 - p) p

/-- Checked digit loop of `Board::solve_helper`. -/
def tryDigitsC (rec : Grid → Nat → Option (Bool × Grid)) (p : Nat) :
    Grid → List Nat → Option (Bool × Grid)
  | g, [] => (setC g p 0).map fun g2 => (false, g2)
  | g, n :: ns =>
    (validC g p n).bind fun v =>
      if v then
        (setC g p n).bind fun g1 =>
          (nextUnsolvedC g1 (p + 1)).bind fun q =>
            match rec g1 q with
            | none => none
            | some (true, g2) => some (true, g2)
            | some (false, g2) => tryDigitsC rec p g2 ns
      else tryDigitsC rec p g ns

/-- Checked `Board::solve_helper` with fuel; `none` when the fuel runs out or
an access would be out of bounds. -/
def solveHelperC : Nat → Grid → Nat → Option (Bool × Grid)
  | 0, _, _ => none
  | fuel + 1, g, p =>
    if p = 81 then (solvedC g).map fun b => (b, g)
    else tryDigitsC (solveHelperC fuel) p g [1, 2, 3, 4, 5, 6, 7, 8, 9]

/-- Checked row formatting of `to_string`. -/
def rowStringC (g : Grid) (y : Nat) : Option String :=
  (getC g (y * 9 + 0)).bind fun a0 =>
  (getC g (y * 9 + 1)).bind fun a1 =>
  (getC g (y * 9 + 2)).bind fun a2 =>
  (getC g (y * 9 + 3)).bind fun a3 =>
  (getC g (y * 9 + 4)).bind fun a4 =>
  (getC g (y * 9 + 5)).bind fun a5 =>
  (getC g (y * 9 + 6)).bind fun a6 =>
  (getC g (y * 9 + 7)).bind fun a7 =>
  (getC g (y * 9 + 8)).map fun a8 =>
    Nat.repr a0 ++ " " ++ Nat.repr a1 ++ " " ++ Nat.repr a2 ++ " | " ++
    Nat.repr a3 ++ " " ++ Nat.repr a4 ++ " " ++ Nat.repr a5 ++ " | " ++
    Nat.repr a6 ++ " " ++ Nat.repr a7 ++ " " ++ Nat.repr a8 ++ "\n"

/-- Checked row loop of `to_string`. -/
def boardRowsC (g : Grid) : List Nat → Option String
  | [] => some ""
  | y :: ys =>
    (rowStringC g y).bind fun r =>
      (boardRowsC g ys).map fun rest =>
        (if y % 3 = 0 ∧ y ≠ 0 then "------+-------+------\n" else "") ++ (r ++ rest)

/-- Checked `to_string`. -/
def boardToStringC (g : Grid) : Option String := boardRowsC g (List.range 9)

/-! Agreement of the checked variants with the total functions on length-81
grids: the panic branch of indexing is unreachable. -/

theorem getC_eq (g : Grid) (k : Nat) (hk : k < g.length) :
    getC g k = some (g.getD k 0) := if_pos hk

theorem validRowColC_eq (g : Grid) (x y n : Nat) (hlen : g.length = 81)
    (hx : x < 9) (hy : y < 9) :
    ∀ is, (∀ i ∈ is, i < 9) →
      validRowColC g x y n is = some (is.all fun i =>
        (decide (i = x) || !decide (g.getD (y * 9 + i) 0 = n)) &&
        (decide (i = y) || !decide (g.getD (i * 9 + x) 0 = n))) := by
  intro is
  induction is with
  | nil => intro _; rfl
  | cons i is ih =>
    intro hmem
    have hi : i < 9 := hmem i (List.mem_cons_self i is)
    have hrow : y * 9 + i < g.length := by omega
    have hcol : i * 9 + x < g.length := by omega
    have ihr := ih fun j hj => hmem j (List.mem_cons_of_mem i hj)
    rw [validRowColC]
    by_cases hix : i = x
    · subst hix
      by_cases hiy : i = y
      · subst hiy
        simp [List.all_cons, ihr, -List.getD_eq_getElem?_getD]
      · by_cases hcn : g.getD (i * 9 + i) 0 = n
        · simp [hiy, hcn, getC_eq g _ hcol, List.all_cons, -List.getD_eq_getElem?_getD]
        · simp [hiy, hcn, getC_eq g _ hcol, List.all_cons, ihr, -List.getD_eq_getElem?_getD]
    · by_cases hrn : g.getD (y * 9 + i) 0 = n
      · simp [hix, hrn, getC_eq g _ hrow, List.all_cons, -List.getD_eq_getElem?_getD]
      · by_cases hiy : i = y
        · subst hiy
          simp [hix, hrn, getC_eq g _ hrow, List.all_cons, ihr, -List.getD_eq_getElem?_getD]
        · by_cases hcn : g.getD (i * 9 + x) 0 = n
          · simp [hix, hiy, hrn, hcn, getC_eq g _ hrow,
              getC_eq g _ hcol, List.all_cons, -List.getD_eq_getElem?_getD]
          · simp [hix, hiy, hrn, hcn, getC_eq g _ hrow,
              getC_eq g _ hcol, List.all_cons, ihr, -List.getD_eq_getElem?_getD]

theorem validBoxColC_eq (g : Grid) (x y n dx : Nat) (hlen : g.length = 81)
    (hx : x < 9) (hy : y < 9) (hdx : dx < 3) :
    ∀ dys, (∀ d ∈ dys, d < 3) →
      validBoxColC g x y n dx dys = some (dys.all fun dy =>
        (decide (y / 3 * 3 + dy = y) && decide (x / 3 * 3 + dx = x)) ||
        !decide (g.getD ((y / 3 * 3 + dy) * 9 + (x / 3 * 3 + dx)) 0 = n)) := by
  intro dys
  induction dys with
  | nil => intro _; rfl
  | cons dy dys ih =>
    intro hmem
    have hdy : dy < 3 := hmem dy (List.mem_cons_self dy dys)
    have hcell : (y / 3 * 3 + dy) * 9 + (x / 3 * 3 + dx) < g.length := by omega
    have ihr := ih fun d hd => hmem d (List.mem_cons_of_mem dy hd)
    rw [validBoxColC]
    by_cases hsk : y / 3 * 3 + dy = y ∧ x / 3 * 3 + dx = x
    · rw [if_pos hsk, ihr]
      simp [List.all_cons, hsk.1, hsk.2, -List.getD_eq_getElem?_getD]
    · rw [if_neg hsk, getC_eq g _ hcell, Option.some_bind]
      by_cases hbn : g.getD ((y / 3 * 3 + dy) * 9 + (x / 3 * 3 + dx)) 0 = n <;>
        rcases not_and_or.mp hsk with h | h <;>
        simp [hbn, h, List.all_cons, ihr, -List.getD_eq_getElem?_getD]

theorem validBoxC_eq (g : Grid) (x y n : Nat) (hlen : g.length = 81)
    (hx : x < 9) (hy : y < 9) :
    ∀ dxs, (∀ d ∈ dxs, d < 3) →
      validBoxC g x y n dxs = some (dxs.all fun dx => (List.range 3).all fun dy =>
        (decide (y / 3 * 3 + dy = y) && decide (x / 3 * 3 + dx = x)) ||
        !decide (g.getD ((y / 3 * 3 + dy) * 9 + (x / 3 * 3 + dx)) 0 = n)) := by
  intro dxs
  induction dxs with
  | nil => intro _; rfl
  | cons dx dxs ih =>
    intro hmem
    have hdx : dx < 3 := hmem dx (List.mem_cons_self dx dxs)
    have ihr := ih fun d hd => hmem d (List.mem_cons_of_mem dx hd)
    rw [validBoxC, validBoxColC_eq g x y n dx hlen hx hy hdx (List.range 3)
      (fun d hd => List.mem_range.mp hd), Option.some_bind]
    by_cases hin : ((List.range 3).all fun dy =>
        (decide (y / 3 * 3 + dy = y) && decide (x / 3 * 3 + dx = x)) ||
        !decide (g.getD ((y / 3 * 3 + dy) * 9 + (x / 3 * 3 + dx)) 0 = n)) = true <;>
      simp [hin, List.all_cons, ihr, -List.getD_eq_getElem?_getD]

theorem validC_eq (g : Grid) (p n : Nat) (hlen : g.length = 81) (hp : p < 81) :
    validC g p n = some (valid g p n) := by
  have hx : p % 9 < 9 := by omega
  have hy : p / 9 < 9 := by omega
  rw [validC, validRowColC_eq g (p % 9) (p / 9) n hlen hx hy (List.range 9)
    (fun i hi => List.mem_range.mp hi), Option.some_bind]
  by_cases hrc : ((List.range 9).all fun i =>
      (decide (i = p % 9) || !decide (g.getD (p / 9 * 9 + i) 0 = n)) &&
      (decide (i = p / 9) || !decide (g.getD (i * 9 + p % 9) 0 = n))) = true
  · rw [if_pos hrc, validBoxC_eq g (p % 9) (p / 9) n hlen hx hy (List.range 3)
      (fun d hd => List.mem_range.mp hd)]
    simp only [valid, hrc, Bool.true_and]
  · rw [if_neg hrc]
    rw [Bool.not_eq_true] at hrc
    simp only [valid, hrc, Bool.false_and]

theorem solvedFromC_eq (g : Grid) (hlen : g.length = 81) :
    ∀ ps, (∀ p ∈ ps, p < 81) →
      solvedFromC g ps = some (ps.all fun p =>
        !decide (g.getD p 0 = 0) && valid g p (g.getD p 0)) := by
  intro ps
  induction ps with
  | nil => intro _; rfl
  | cons p ps ih =>
    intro hmem
    have hp : p < 81 := hmem p (List.mem_cons_self p ps)
    have ihr := ih fun q hq => hmem q (List.mem_cons_of_mem p hq)
    by_cases hz : g.getD p 0 = 0
    · simp [solvedFromC, hz, -List.getD_eq_getElem?_getD]
    · rw [solvedFromC, if_neg hz, validC_eq g p _ hlen hp, Option.some_bind]
      by_cases hval : valid g p (g.getD p 0) = true <;>
        simp [hz, hval, List.all_cons, ihr, -List.getD_eq_getElem?_getD]

theorem solvedC_eq (g : Grid) (hlen : g.length = 81) : solvedC g = some (solved g) := by
  rw [solvedC, solvedFromC_eq g hlen (List.range g.length)
    (fun p hp => by rw [List.mem_range, hlen] at hp; exact hp)]
  rfl

theorem nextUnsolvedFromC_eq (g : Grid) (hlen : g.length = 81) :
    ∀ k p, k + p ≤ 81 → nextUnsolvedFromC g k p = some (nextUnsolvedFrom g k p) := by
  intro k
  induction k with
  | zero => intro p _; rfl
  | succ k ih =>
    intro p hk
    rw [nextUnsolvedFromC, getC_eq g p (by omega), Option.some_bind]
    by_cases hz : g.getD p 0 = 0 <;>
      simp [nextUnsolvedFrom, hz, ih (p + 1) (by omega), -List.getD_eq_getElem?_getD]

theorem nextUnsolvedC_eq (g : Grid) (hlen : g.length = 81) (p : Nat) :
    nextUnsolvedC g p = some (nextUnsolved g p) := by
  by_cases hp : p ≤ 81
  · exact nextUnsolvedFromC_eq g hlen (81 - p) p (by omega)
  · have h0 : 81 - p = 0 := by omega
    rw [nextUnsolvedC, nextUnsolved, h0]
    rfl

theorem solveHelperC_eq :
    ∀ fuel g p, g.length = 81 → p ≤ 81 → solveHelperC fuel g p = solveHelper fuel g p := by
  intro fuel
  induction fuel with
  | zero =>
    intro g p _ _
    rfl
  | succ fuel ih =>
    intro g p hlen hp
    by_cases h81 : p = 81
    · subst h81
      rw [show solveHelperC (fuel + 1) g 81 = (solvedC g).map (fun b => (b, g)) from rfl,
        show solveHelper (fuel + 1) g 81 = some (solved g, g) from rfl,
        solvedC_eq g hlen]
      rfl
    · have hp81 : p < 81 := by omega
      simp only [solveHelperC, solveHelper, if_neg h81]
      have loop : ∀ ns g1, g1.length = 81 →
          tryDigitsC (solveHelperC fuel) p g1 ns = tryDigits (solveHelper fuel) p g1 ns := by
        intro ns
        induction ns with
        | nil =>
          intro g1 hlen1
          rw [show tryDigitsC (solveHelperC fuel) p g1 [] =
            (setC g1 p 0).map (fun g2 => (false, g2)) from rfl]
          rw [setC, if_pos (by omega)]
          rfl
        | cons n ns ihn =>
          intro g1 hlen1
          rw [show tryDigitsC (solveHelperC fuel) p g1 (n :: ns) =
            (validC g1 p n).bind (fun v =>
              if v then
                (setC g1 p n).bind fun gs =>
                  (nextUnsolvedC gs (p + 1)).bind fun q =>
                    match solveHelperC fuel gs q with
                    | none => none
                    | some (true, g2) => some (true, g2)
                    | some (false, g2) => tryDigitsC (solveHelperC fuel) p g2 ns
              else tryDigitsC (solveHelperC fuel) p g1 ns) from rfl]
          rw [validC_eq g1 p n hlen1 hp81, Option.some_bind]
          by_cases hv : valid g1 p n = true
          · rw [if_pos hv]
            have hlenset : (g1.set p n).length = 81 := by
              rw [List.length_set]
              exact hlen1
            rw [setC, if_pos (by omega), Option.some_bind,
              nextUnsolvedC_eq (g1.set p n) hlenset (p + 1), Option.some_bind,
              ih (g1.set p n) (nextUnsolved (g1.set p n) (p + 1)) hlenset
                (nextUnsolved_le _ _)]
            rw [tryDigits, if_pos hv]
            rcases hrec : solveHelper fuel (g1.set p n) (nextUnsolved (g1.set p n) (p + 1))
                with _ | ⟨b, g2⟩
            · rfl
            · cases b
              · have hlen2 : g2.length = 81 := by
                  have hres := solveHelper_false_restore fuel (g1.set p n)
                    (nextUnsolved (g1.set p n) (p + 1)) g2 hrec
                  by_cases hq : nextUnsolved (g1.set p n) (p + 1) = 81
                  · rw [if_pos hq] at hres
                    rw [hres]
                    exact hlenset
                  · rw [if_neg hq] at hres
                    rw [hres, List.length_set]
                    exact hlenset
                exact ihn g2 hlen2
              · rfl
          · rw [if_neg hv, tryDigits, if_neg hv]
            exact ihn g1 hlen1
      exact loop [1, 2, 3, 4, 5, 6, 7, 8, 9] g hlen

theorem rowStringC_eq (g : Grid) (hlen : g.length = 81) (y : Nat) (hy : y < 9) :
    rowStringC g y = some (rowString g y) := by
  rw [rowStringC,
    getC_eq g (y * 9 + 0) (by omega),
    getC_eq g (y * 9 + 1) (by omega),
    getC_eq g (y * 9 + 2) (by omega),
    getC_eq g (y * 9 + 3) (by omega),
    getC_eq g (y * 9 + 4) (by omega),
    getC_eq g (y * 9 + 5) (by omega),
    getC_eq g (y * 9 + 6) (by omega),
    getC_eq g (y * 9 + 7) (by omega),
    getC_eq g (y * 9 + 8) (by omega)]
  rfl

theorem boardRowsC_eq (g : Grid) (hlen : g.length = 81) :
    ∀ ys, (∀ y ∈ ys, y < 9) → boardRowsC g ys = some (boardRows g ys) := by
  intro ys
  induction ys with
  | nil => intro _; rfl
  | cons y ys ih =>
    intro hmem
    rw [boardRowsC, rowStringC_eq g hlen y (hmem y (List.mem_cons_self y ys)),
      Option.some_bind, ih fun z hz => hmem z (List.mem_cons_of_mem y hz)]
    rfl

theorem boardToStringC_eq (g : Grid) (hlen : g.length = 81) :
    boardToStringC g = some (boardToString g) :=
  boardRowsC_eq g hlen (List.range 9) fun y hy => List.mem_range.mp hy

/-- C10: on a board of length exactly 81 (as produced by `Board::new`), every
grid index computed by `valid` (positions 0..80), `solved`, `next_unsolved`,
`solve_helper`, and `to_string` is within bounds: the checked variants, which
return `none` exactly where Rust indexing would panic, agree with the total
functions, and the checked solver run completes in `some`. -/
theorem checked_ops_in_bounds (g : Grid) (hlen : g.length = 81) :
    (∀ p n, p < 81 → validC g p n = some (valid g p n)) ∧
    solvedC g = some (solved g) ∧
    (∀ p, nextUnsolvedC g p = some (nextUnsolved g p)) ∧
    (∀ fuel p, p ≤ 81 → solveHelperC fuel g p = solveHelper fuel g p) ∧
    (solveHelperC 82 g (nextUnsolved g 0)).isSome = true ∧
    boardToStringC g = some (boardToString g) := by
  refine ⟨fun p n hp => validC_eq g p n hlen hp, solvedC_eq g hlen,
    fun p => nextUnsolvedC_eq g hlen p,
    fun fuel p hp => solveHelperC_eq fuel g p hlen hp, ?_,
    boardToStringC_eq g hlen⟩
  rw [solveHelperC_eq 82 g (nextUnsolved g 0) hlen (nextUnsolved_le g 0)]
  exact solveHelper_isSome 82 g (nextUnsolved g 0) (nextUnsolved_le g 0) (by omega)

/-! Concrete boards: the spec's documented scenario and small instances used
to witness the hypotheses of the claim theorems. -/

/-- The concrete 81-character puzzle input of the spec's scenario. -/
def puzzleInput : String :=
  "120400586060201403040096000090000014081000360430000070000720030608903040372008051"

/-- The grid parsed from `puzzleInput`. -/
def puzzleGrid : Grid :=
  [1, 2, 0, 4, 0, 0, 5, 8, 6, 0, 6, 0, 2, 0, 1, 4, 0, 3, 0, 4, 0, 0, 9, 6, 0, 0, 0,
   0, 9, 0, 0, 0, 0, 0, 1, 4, 0, 8, 1, 0, 0, 0, 3, 6, 0, 4, 3, 0, 0, 0, 0, 0, 7, 0,
   0, 0, 0, 7, 2, 0, 0, 3, 0, 6, 0, 8, 9, 0, 3, 0, 4, 0, 3, 7, 2, 0, 0, 8, 0, 5, 1]

/-- The solved grid the search returns on `puzzleGrid`. -/
def puzzleSolution : Grid :=
  [1, 2, 9, 4, 3, 7, 5, 8, 6, 8, 6, 7, 2, 5, 1, 4, 9, 3, 5, 4, 3, 8, 9, 6, 1, 2, 7,
   7, 9, 5, 3, 6, 2, 8, 1, 4, 2, 8, 1, 5, 7, 4, 3, 6, 9, 4, 3, 6, 1, 8, 9, 2, 7, 5,
   9, 1, 4, 7, 2, 5, 6, 3, 8, 6, 5, 8, 9, 1, 3, 7, 4, 2, 3, 7, 2, 6, 4, 8, 9, 5, 1]

/-- A board with exactly one empty cell (position 0) whose peers hold all nine
digits, so the search fails immediately: `puzzleSolution` with cell 0 emptied
and cell 72 (column peer of cell 0) changed to 1. -/
def stuckGrid : Grid :=
  [0, 2, 9, 4, 3, 7, 5, 8, 6, 8, 6, 7, 2, 5, 1, 4, 9, 3, 5, 4, 3, 8, 9, 6, 1, 2, 7,
   7, 9, 5, 3, 6, 2, 8, 1, 4, 2, 8, 1, 5, 7, 4, 3, 6, 9, 4, 3, 6, 1, 8, 9, 2, 7, 5,
   9, 1, 4, 7, 2, 5, 6, 3, 8, 6, 5, 8, 9, 1, 3, 7, 4, 2, 1, 7, 2, 6, 4, 8, 9, 5, 1]

/-- An all-blank 81-character input. -/
def allZeros : List Char := List.replicate 81 '0'

set_option maxRecDepth 100000 in
set_option maxHeartbeats 4000000 in
/-- C9: the concrete scenario: the documented puzzle input parses into
`puzzleGrid`, `solve()` succeeds with `puzzleSolution` as the final grid, and
rendering it yields exactly the documented text with single-space separators,
bar-separated column groups, and the divider line after rows 3 and 6. -/
theorem concrete_puzzle_solves_and_renders :
    boardNew puzzleInput.toList = .ok puzzleGrid ∧
    solve puzzleGrid = (true, puzzleSolution) ∧
    boardToString puzzleSolution =
      "1 2 9 | 4 3 7 | 5 8 6\n8 6 7 | 2 5 1 | 4 9 3\n5 4 3 | 8 9 6 | 1 2 7\n------+-------+------\n7 9 5 | 3 6 2 | 8 1 4\n2 8 1 | 5 7 4 | 3 6 9\n4 3 6 | 1 8 9 | 2 7 5\n------+-------+------\n9 1 4 | 7 2 5 | 6 3 8\n6 5 8 | 9 1 3 | 7 4 2\n3 7 2 | 6 4 8 | 9 5 1\n" := by
  refine ⟨by rfl, by decide, by decide⟩

/-! Witnesses: each claim theorem with hypotheses, applied at a concrete
board, with the hypotheses discharged by evaluation. -/

set_option maxRecDepth 10000 in
/-- Witness for C1 at the scenario board. -/
theorem solve_true_iff_completion_witness :
    (puzzleGrid.length = 81 ∧ ∀ i, i < 81 → puzzleGrid.getD i 0 ≤ 9) ∧
    (((solve puzzleGrid).1 = true ↔ ∃ gf, Completes puzzleGrid gf) ∧
     ((solve puzzleGrid).1 = true → Completes puzzleGrid (solve puzzleGrid).2)) :=
  ⟨⟨by decide, by decide⟩, solve_true_iff_completion puzzleGrid (by decide) (by decide)⟩

set_option maxRecDepth 100000 in
/-- Witness for C2 at the already-solved board. -/
theorem solve_true_permutations_witness :
    (puzzleSolution.length = 81 ∧ (∀ i, i < 81 → puzzleSolution.getD i 0 ≤ 9) ∧
      (solve puzzleSolution).1 = true) ∧
    (solved (solve puzzleSolution).2 = true ∧
     (∀ i, i < 81 → (solve puzzleSolution).2.getD i 0 ≠ 0) ∧
     (∀ u, u < 9 →
       (rowVals (solve puzzleSolution).2 u).Perm [1, 2, 3, 4, 5, 6, 7, 8, 9] ∧
       (colVals (solve puzzleSolution).2 u).Perm [1, 2, 3, 4, 5, 6, 7, 8, 9] ∧
       (boxVals (solve puzzleSolution).2 u).Perm [1, 2, 3, 4, 5, 6, 7, 8, 9])) :=
  ⟨⟨by decide, by decide, by decide⟩,
    solve_true_permutations puzzleSolution (by decide) (by decide) (by decide)⟩

set_option maxRecDepth 10000 in
/-- Witness for C3 at the scenario board, position 0, digit 1. -/
theorem valid_characterisation_witness :
    ((0 : Nat) < 81 ∧ (1 : Nat) ≤ 1 ∧ (1 : Nat) ≤ 9) ∧
    ((valid puzzleGrid 0 1 = false ↔
        ∃ q, q < 81 ∧ q ≠ 0 ∧ SameUnit 0 q ∧ puzzleGrid.getD q 0 = 1) ∧
     ∀ m, valid (puzzleGrid.set 0 m) 0 1 = valid puzzleGrid 0 1) :=
  ⟨⟨by decide, by decide, by decide⟩,
    valid_characterisation puzzleGrid 0 1 (by decide) (by decide) (by decide)⟩

set_option maxRecDepth 10000 in
/-- Witness for C4 at the immediately-stuck board. -/
theorem solve_false_preserves_grid_witness :
    (solve stuckGrid).1 = false ∧ (solve stuckGrid).2 = stuckGrid :=
  ⟨by decide, solve_false_preserves_grid stuckGrid (by decide)⟩

set_option maxRecDepth 10000 in
/-- Witness for the amended C5 at an all-blank input. -/
theorem boardNew_error_classification_witness :
    (utf8Length allZeros = 81 ∧ allZeros.all allowedChar = true) ∧
    (∃ g, boardNew allZeros = .ok g) :=
  ⟨⟨by decide, by decide⟩,
    (boardNew_error_classification allZeros).2.2.1 (by decide) (by decide)⟩

set_option maxRecDepth 10000 in
/-- Witness for C6 at an all-blank input. -/
theorem boardNew_roundtrip_witness :
    (allZeros.length = 81 ∧ allZeros.all allowedChar = true) ∧
    (∃ g, boardNew allZeros = .ok g ∧ g.length = 81 ∧
      ∀ i, i < 81 → g.getD i 0 = cellValue (allZeros.getD i ' ')) :=
  ⟨⟨by decide, by decide⟩, boardNew_roundtrip allZeros (by decide) (by decide)⟩

set_option maxRecDepth 100000 in
/-- Witness for the amended C7 at the already-solved (hence consistent)
board, whose trace is empty. -/
theorem solve_trace_consistent_witness :
    (puzzleSolution.length = 81 ∧ Consistent puzzleSolution ∧
      solveHelperT 82 puzzleSolution (nextUnsolved puzzleSolution 0) =
        some ((true, puzzleSolution), [])) ∧
    ((true, puzzleSolution) = solve puzzleSolution ∧
      (∀ s ∈ puzzleSolution :: ([] : List Grid), Consistent s) ∧
      Consistent (solve puzzleSolution).2) :=
  ⟨⟨by decide, by decide, by decide⟩,
    solve_trace_consistent puzzleSolution (by decide) (by decide)
      (true, puzzleSolution) [] (by decide)⟩

set_option maxRecDepth 10000 in
/-- Witness for C8 at the already-solved board, start position 0. -/
theorem solveHelper_terminates_witness :
    (0 : Nat) ≤ 81 ∧
    ((solveHelper 82 puzzleSolution 0).isSome = true ∧
      (0 < 81 → 0 < nextUnsolved puzzleSolution (0 + 1) ∧
        nextUnsolved puzzleSolution (0 + 1) ≤ 81)) :=
  ⟨by decide, solveHelper_terminates puzzleSolution 0 (by decide)⟩

set_option maxRecDepth 10000 in
/-- Witness for C10 at the scenario board. -/
theorem checked_ops_in_bounds_witness :
    puzzleGrid.length = 81 ∧
    ((∀ p n, p < 81 → validC puzzleGrid p n = some (valid puzzleGrid p n)) ∧
      solvedC puzzleGrid = some (solved puzzleGrid) ∧
      (∀ p, nextUnsolvedC puzzleGrid p = some (nextUnsolved puzzleGrid p)) ∧
      (∀ fuel p, p ≤ 81 → solveHelperC fuel puzzleGrid p = solveHelper fuel puzzleGrid p) ∧
      (solveHelperC 82 puzzleGrid (nextUnsolved puzzleGrid 0)).isSome = true ∧
      boardToStringC puzzleGrid = some (boardToString puzzleGrid)) :=
  ⟨by decide, checked_ops_in_bounds puzzleGrid (by decide)⟩

end SudokuSolver
